import Mathlib

/-!
# iControl — verification of the HID input-synthesis pipeline

Shallow embedding of the iControl repository's input-encoding and
screen-locating logic:

* `auto_ios_agent.py` — USB HID gadget encoders (`KEY_MAP`, `send_key`,
  `tap`, `swipe`, `type_text`);
* `bt_keyboard_emu.py` — Bluetooth HID keyboard tables (`KEYCODE`,
  `MODIFIER`) and report builder (`send_keypress`);
* `src/raspi_controller/main.py` — Screen Locator (`find_iphone_screen`),
  decision retry loop (`get_next_action_from_gemini`) and the sequencer's
  handling of its result;
* the remote-bridge chunked relative-move decomposition (its implementation,
  `HIDController.move_mouse_relative`, is not among the provided files; it is
  modelled from the spec).

Normalized coordinates and contour areas are modelled as rationals; machine
bytes as naturals with explicit `% 256` / `% 32768` masks where the Python
code masks.
-/

set_option allowUnsafeReducibility true
attribute [local semireducible] Rat.mul Rat.add Rat.sub Rat.inv

namespace IControl

/-! ## USB gadget keyboard (`auto_ios_agent.py`)

`KEY_MAP` is built from the dict comprehension
`{c: 0x04+i for i,c in enumerate("abcdefghijklmnopqrstuvwxyz")}`,
`{str(i): 0x1E+i for i in range(10)}` and the explicit punctuation entries.
-/

/-- The 26 lowercase letters, in the order of the Python source string. -/
def letterChars : List Char := "abcdefghijklmnopqrstuvwxyz".toList

/-- Association list underlying `KEY_MAP` in `auto_ios_agent.py`. -/
def keyEntries : List (Char × Nat) :=
  (letterChars.enum.map (fun p => (p.2, 0x04 + p.1)))
    ++ ((List.range 10).map (fun i => (Char.ofNat (48 + i), 0x1E + i)))
    ++ [(' ', 0x2C), ('\n', 0x28), (',', 0x36), ('.', 0x37), ('-', 0x2D), ('/', 0x38)]

/-- `KEY_MAP.get(ch)` — `none` models Python's `None`. -/
def KEY_MAP (c : Char) : Option Nat := keyEntries.lookup c

/-- ASCII model of Python's `str.lower` on a single character, as used by
`send_key` (`ch.lower()`); all of `KEY_MAP`'s keys are ASCII. -/
def pyLower (c : Char) : Char :=
  if 65 ≤ c.toNat ∧ c.toNat ≤ 90 then Char.ofNat (c.toNat + 32) else c

/-- `send_key(ch)`: looks up `KEY_MAP.get(ch.lower())`; on `None` returns with
no report; otherwise writes the 8-byte boot press report
`[0,0,kc,0,0,0,0,0]` and then the all-zero 8-byte release report. The result
is the ordered list of reports written to `/dev/hidg0`. -/
def send_key (ch : Char) : List (List Nat) :=
  match KEY_MAP (pyLower ch) with
  | none => []
  | some kc => [[0, 0, kc, 0, 0, 0, 0, 0], List.replicate 8 0]

/-! ## USB gadget absolute touch (`auto_ios_agent.py`) -/

/-- Python `int(q)` on a rational: truncation toward zero
(`Int.tdiv` rounds toward zero and `q.den > 0`). -/
def pyTrunc (q : ℚ) : ℤ := q.num.tdiv q.den

/-- `int(x*32767) & 0x7FFF` — Python's `&` with `0x7FFF = 2^15 - 1` is the
nonnegative remainder modulo `2^15`. -/
def scale15 (x : ℚ) : ℕ := (pyTrunc (x * 32767) % 32768).toNat

/-- `n.to_bytes(2, 'little')` for `n < 2^16`. -/
def le16 (n : ℕ) : List ℕ := [n % 256, n / 256 % 256]

/-- One touch event written to `/dev/hidg1`: a touch-down at normalized
coordinates, or the lift. -/
inductive TouchEv : Type
  | down (x y : ℚ)
  | lift
deriving DecidableEq, Repr

/-- The 4-byte report serialization of a touch event: little-endian scaled X
then little-endian scaled Y; the lift is the all-zero report
`b"\x00\x00\x00\x00"`. -/
def TouchEv.bytes : TouchEv → List ℕ
  | .down x y => le16 (scale15 x) ++ le16 (scale15 y)
  | .lift => [0, 0, 0, 0]

/-- `tap(x, y)`: one touch-down report at `(x, y)` followed (after the 50 ms
dwell) by the lift report. -/
def tapEvents (x y : ℚ) : List TouchEv := [.down x y, .lift]

/-- The `doubleTap` branch of the sequencer: two `tap` calls at the same
point. -/
def doubleTapEvents (x y : ℚ) : List TouchEv := tapEvents x y ++ tapEvents x y

/-- `swipe(dx, dy)`: `steps = 15`; the loop body calls
`tap(0.5 + dx/steps, 0.5 + dy/steps)` on every iteration. -/
def swipeEvents (dx dy : ℚ) : List TouchEv :=
  (List.range 15).flatMap (fun _ => tapEvents (1/2 + dx/15) (1/2 + dy/15))

/-! ## Bluetooth keyboard tables (`bt_keyboard_emu.py`) -/

/-- The `KEYCODE` dict: lowercase letters, digits (`'1'..'9','0'` mapped to
`0x1E..0x27` per the HID usage table), space, and uppercase letters mapped to
the same codes as their lowercase forms. -/
def KEYCODE (c : Char) : Option Nat :=
  List.lookup c <|
    (letterChars.enum.map (fun p => (p.2, 0x04 + p.1)))
      ++ [('1', 0x1E), ('2', 0x1F), ('3', 0x20), ('4', 0x21), ('5', 0x22),
          ('6', 0x23), ('7', 0x24), ('8', 0x25), ('9', 0x26), ('0', 0x27),
          (' ', 0x2C)]
      ++ ((letterChars.enum.map (fun p => (Char.ofNat (p.2.toNat - 32), 0x04 + p.1))))

/-! ## Screen Locator (`src/raspi_controller/main.py`)

`find_iphone_screen` runs OpenCV preprocessing (grayscale, blur, threshold,
`findContours`) and then pure selection/margin arithmetic. The OpenCV
extraction is out of scope; the embedding takes the extracted contour list
(each with its `contourArea` and `boundingRect`) as input and models the
selection loop and margin clipping exactly. -/

/-- One extracted contour: its enclosed area (`cv2.contourArea`, a float,
modelled as a rational) and bounding rectangle `(x, y, w, h)`. -/
structure Contour : Type where
  area : ℚ
  x : ℤ
  y : ℤ
  w : ℤ
  h : ℤ
deriving DecidableEq, Repr

/-- The selection loop: starting from `largest_contour = None`,
`max_area = 0`, keep a contour iff `area > min_area and area > max_area`. -/
def selectLargest (minArea : ℚ) (contours : List Contour) : Option Contour :=
  (contours.foldl
    (fun acc c => if minArea < c.area ∧ acc.2 < c.area then (some c, c.area) else acc)
    ((none : Option Contour), (0 : ℚ))).1

/-- `find_iphone_screen(frame, min_area_ratio=0.10)` restricted to its pure
part: frame shape is `(frameH, frameW)` (`frame.shape[0]`, `frame.shape[1]`);
returns the margin-expanded, frame-clipped region `(x, y, w, h)` of the
selected contour, or `none` (the Python `None, None`) when no contour
qualifies. -/
def find_iphone_screen (frameH frameW : ℕ) (contours : List Contour) :
    Option (ℤ × ℤ × ℤ × ℤ) :=
  if contours = [] then none
  else
    let frame_area : ℚ := (frameH : ℚ) * (frameW : ℚ)
    let min_area : ℚ := frame_area * (1 / 10)
    match selectLargest min_area contours with
    | none => none
    | some c =>
      let x := max 0 (c.x - 5)
      let y := max 0 (c.y - 5)
      let w := min ((frameW : ℤ) - x) (c.w + 2 * 5)
      let h := min ((frameH : ℤ) - y) (c.h + 2 * 5)
      some (x, y, w, h)

/-- The sequencer's fallback in `main`: when `find_iphone_screen` returns
`None`, the full frame is used for the decision producer, i.e. the
effective region is `(0, 0, frameW, frameH)`. -/
def regionUsed (frameH frameW : ℕ) (contours : List Contour) : ℤ × ℤ × ℤ × ℤ :=
  match find_iphone_screen frameH frameW contours with
  | none => (0, 0, (frameW : ℤ), (frameH : ℤ))
  | some r => r

/-! ## Decision retry loop (`get_next_action_from_gemini`, `main`)

An attempt's outcome after the text cleanup is either a parse failure
(`json.JSONDecodeError`, or any other exception in the attempt body — both
run the same retry logic) or a parsed JSON value. -/

/-- Minimal JSON value model for the decision producer's replies. -/
inductive JVal : Type
  | str (s : String)
  | num (n : ℤ)
  | obj (fields : List (String × JVal))

/-- Python `"action" in action_json` for a parsed dict (non-dict values raise
and are folded into the failure case of the attempt outcome). -/
def hasKey (j : JVal) (k : String) : Bool :=
  match j with
  | .obj fs => fs.any (fun p => p.1 == k)
  | _ => false

/-- The safe default returned after the retry loop:
`{"action": "wait", "params": {"seconds": 2}}`. -/
def waitDefault : JVal :=
  .obj [("action", .str "wait"), ("params", .obj [("seconds", .num 2)])]

/-- `get_next_action_from_gemini`, as a function of the per-attempt parse
outcomes (one entry per loop iteration, `retry_count` many). On a non-final
attempt, a parse failure or a parsed value missing `"action"` retries; a
parsed value with `"action"` is returned. On the final attempt, a parsed
value is returned whether or not it has `"action"` (the `continue` guard
`attempt < retry_count - 1` is skipped and control reaches
`return action_json`); a parse failure falls out of the loop to the
`waitDefault` return. -/
def get_next_action : List (Except Unit JVal) → JVal
  | [] => waitDefault
  | [Except.ok j] => j
  | [Except.error _] => waitDefault
  | Except.ok j :: rest =>
      if hasKey j "action" then j else get_next_action rest
  | Except.error _ :: rest => get_next_action rest

/-- What the `main` loop does with the returned action data:
`if not action_data or "action" not in action_data: ... break` stops the
loop; otherwise the action is dispatched and the loop advances. -/
inductive LoopStep : Type
  | stop
  | dispatch (j : JVal)

/-- The sequencer's guard on the decision result in `main`. -/
def sequencerStep (j : JVal) : LoopStep :=
  if hasKey j "action" then .dispatch j else .stop

/-! ## Remote-bridge chunked relative move

Modelled from the spec: the chunking implementation
(`HIDController.move_mouse_relative` imported by
`src/raspi_controller/manual_control.py`) is not among the provided source
files — only its caller and the BLE test controller are. Per the spec:
"repeatedly clamp each component to `[-MAX_MOVE, MAX_MOVE]`, send, subtract
the sent amount from the remainder, repeat until zero remains". -/

/-- Clamp a displacement component to `[-M, M]`. -/
def clampMove (M : ℕ) (d : ℤ) : ℤ := max (-(M : ℤ)) (min d (M : ℤ))

/-- Modelled from the spec: the chunking loop on both components, with
explicit fuel (each iteration shrinks the larger remaining component, so
`max |dx| |dy|` iterations suffice when `1 ≤ M`). -/
def chunkAux (M : ℕ) : ℕ → ℤ → ℤ → List (ℤ × ℤ)
  | 0, _, _ => []
  | fuel + 1, dx, dy =>
    if dx = 0 ∧ dy = 0 then []
    else
      (clampMove M dx, clampMove M dy)
        :: chunkAux M fuel (dx - clampMove M dx) (dy - clampMove M dy)

/-- Modelled from the spec: the sequence of sub-moves emitted for a requested
relative displacement `(dx, dy)` under bound `MAX_MOVE = M`. -/
def chunkMoves (M : ℕ) (dx dy : ℤ) : List (ℤ × ℤ) :=
  chunkAux M (max dx.natAbs dy.natAbs) dx dy

/-! ## Spec-side definitions for comparison

These follow the spec's / claims' words, to be compared against the
definitions above, which are translated from the source. -/

/-- The spec's invariant "normalized coordinates are clamped to `[0,1]`
before transform". -/
def clamp01 (q : ℚ) : ℚ := max 0 (min 1 q)

/-- Python 3 `round` to the nearest integer, ties to even (banker's
rounding), floor-free on the numerator/denominator so it evaluates:
`f = ⌊q⌋` and the doubled fractional part `2(q - f)` compared with 1. -/
def pyRound (q : ℚ) : ℤ :=
  let f := q.num.ediv q.den
  let r2 := 2 * (q.num - f * (q.den : ℤ))
  if r2 < (q.den : ℤ) then f
  else if (q.den : ℤ) < r2 then f + 1
  else if f % 2 = 0 then f else f + 1

/-- The claim's scaling for one coordinate: clamp to `[0,1]`, then
`round(x·32767) & 0x7FFF`. -/
def scale15Claim (x : ℚ) : ℕ := (pyRound (clamp01 x * 32767) % 32768).toNat

/-- The claim's touch-down report: 4 bytes, little-endian claimed X value
then little-endian claimed Y value. -/
def tapDownClaim (x y : ℚ) : List ℕ := le16 (scale15Claim x) ++ le16 (scale15Claim y)

/-- The character set named by the keycode-completeness claim:
{a–z, 0–9, space, newline, comma, period, hyphen, slash}. -/
def claimedChars : List Char :=
  letterChars ++ (List.range 10).map (fun i => Char.ofNat (48 + i))
    ++ [' ', '\n', ',', '.', '-', '/']

/-- The digit characters present in both keyboard tables. -/
def digitChars : List Char := (List.range 10).map (fun i => Char.ofNat (48 + i))

/-- The touch-lift invariant: every touch-down event in the stream is
immediately followed by the lift event. -/
def liftFollows (l : List TouchEv) : Prop :=
  ∀ i x y, l[i]? = some (TouchEv.down x y) → l[i + 1]? = some TouchEv.lift

/-! ## Chunked relative move: bounds and exact sum -/

theorem clampMove_le (M : ℕ) (d : ℤ) :
    -(M : ℤ) ≤ clampMove M d ∧ clampMove M d ≤ (M : ℤ) := by
  refine ⟨le_max_left _ _, max_le ?_ (min_le_right _ _)⟩
  omega

theorem clampMove_zero (M : ℕ) : clampMove M 0 = 0 := by
  have h1 : min (0 : ℤ) (M : ℤ) = 0 := min_eq_left (by positivity)
  have h2 : max (-(M : ℤ)) (0 : ℤ) = 0 := max_eq_right (by omega)
  simp [clampMove, h1, h2]

theorem sub_clampMove_natAbs_lt (M : ℕ) (hM : 1 ≤ M) (d : ℤ) (hd : d ≠ 0) :
    (d - clampMove M d).natAbs < d.natAbs := by
  have hM' : (1 : ℤ) ≤ (M : ℤ) := by exact_mod_cast hM
  rcases le_total d (M : ℤ) with h1 | h1 <;>
    rcases le_total (-(M : ℤ)) (min d (M : ℤ)) with h2 | h2 <;>
      simp only [clampMove, min_eq_left h1, min_eq_right h1, max_eq_right h2,
        max_eq_left h2] <;> omega

theorem chunkAux_mem_bounds (M : ℕ) :
    ∀ fuel (dx dy : ℤ) p, p ∈ chunkAux M fuel dx dy →
      -(M : ℤ) ≤ p.1 ∧ p.1 ≤ (M : ℤ) ∧ -(M : ℤ) ≤ p.2 ∧ p.2 ≤ (M : ℤ) := by
  intro fuel
  induction fuel with
  | zero => intro dx dy p hp; simp [chunkAux] at hp
  | succ n ih =>
    intro dx dy p hp
    rw [chunkAux] at hp
    split at hp
    · simp at hp
    · rcases List.mem_cons.mp hp with h | h
      · subst h
        exact ⟨(clampMove_le M dx).1, (clampMove_le M dx).2,
          (clampMove_le M dy).1, (clampMove_le M dy).2⟩
      · exact ih _ _ p h

theorem chunkAux_sum (M : ℕ) (hM : 1 ≤ M) :
    ∀ fuel (dx dy : ℤ), dx.natAbs ≤ fuel → dy.natAbs ≤ fuel →
      ((chunkAux M fuel dx dy).map Prod.fst).sum = dx ∧
      ((chunkAux M fuel dx dy).map Prod.snd).sum = dy := by
  intro fuel
  induction fuel with
  | zero =>
    intro dx dy hx hy
    have : dx = 0 ∧ dy = 0 := by omega
    simp [chunkAux, this.1, this.2]
  | succ n ih =>
    intro dx dy hx hy
    rw [chunkAux]
    split
    · next h => simp [h.1, h.2]
    · next h =>
      have hx' : (dx - clampMove M dx).natAbs ≤ n := by
        by_cases h0 : dx = 0
        · simp [h0, clampMove_zero]
        · have := sub_clampMove_natAbs_lt M hM dx h0; omega
      have hy' : (dy - clampMove M dy).natAbs ≤ n := by
        by_cases h0 : dy = 0
        · simp [h0, clampMove_zero]
        · have := sub_clampMove_natAbs_lt M hM dy h0; omega
      have := ih (dx - clampMove M dx) (dy - clampMove M dy) hx' hy'
      simp only [List.map_cons, List.sum_cons, this.1, this.2]
      omega

/-- C1: every sub-move emitted by the remote-bridge chunked relative-move
decomposition has both components in `[-MAX_MOVE, MAX_MOVE]`, the emitted
sub-moves sum component-wise to exactly the requested `(dx, dy)`, and
`dx = 300` with `MAX_MOVE = 125` yields the sub-moves `125, 125, 50`. -/
theorem chunked_relative_move_correct :
    (∀ (M : ℕ) (dx dy : ℤ), 1 ≤ M →
      (∀ p ∈ chunkMoves M dx dy,
        -(M : ℤ) ≤ p.1 ∧ p.1 ≤ (M : ℤ) ∧ -(M : ℤ) ≤ p.2 ∧ p.2 ≤ (M : ℤ)) ∧
      ((chunkMoves M dx dy).map Prod.fst).sum = dx ∧
      ((chunkMoves M dx dy).map Prod.snd).sum = dy) ∧
    (chunkMoves 125 300 0).map Prod.fst = [125, 125, 50] := by
  constructor
  · intro M dx dy hM
    refine ⟨fun p hp => chunkAux_mem_bounds M _ dx dy p hp, ?_⟩
    exact chunkAux_sum M hM _ dx dy (le_max_left _ _) (le_max_right _ _)
  · decide

/-- Witness for C1 at `MAX_MOVE = 125`, `(dx, dy) = (300, 0)`. -/
theorem chunked_relative_move_correct_witness :
    1 ≤ 125 ∧ ((chunkMoves 125 300 0).map Prod.fst).sum = 300 ∧
      ((chunkMoves 125 300 0).map Prod.snd).sum = 0 :=
  ⟨by decide, (chunked_relative_move_correct.1 125 300 0 (by decide)).2⟩

/-! ## Swipe and decision-loop evaluations -/

/-- C2: evaluating `swipe(0.3, 0)` on the code. All 15 loop iterations call
`tap` at the same point `(0.5 + 0.3/15, 0.5) = (0.52, 0.5)` — not at
successive interpolation points toward `(0.8, 0.5)` — and each of the 15
taps emits its own lift, so 15 lift reports are emitted, not one. -/
theorem swipe_taps_fixed_point_eval :
    swipeEvents (3/10) 0 =
      (List.range 15).flatMap
        (fun _ => [TouchEv.down (13/25) (1/2), TouchEv.lift]) ∧
    ((swipeEvents (3/10) 0).filter (· = TouchEv.lift)).length = 15 ∧
    (swipeEvents (3/10) 0).length = 30 := by
  refine ⟨by decide, by decide, by decide⟩

/-- C7: evaluating the decision retry loop. Three parse failures produce the
safe default `{"action": "wait", "params": {"seconds": 2}}`, which the
sequencer dispatches; but three parseable replies lacking the `"action"` key
make `get_next_action_from_gemini` return the malformed dict itself (the
final attempt's `continue` guard is skipped), and `main` then stops the loop
instead of advancing. -/
theorem decision_retry_eval :
    get_next_action [Except.error (), Except.error (), Except.error ()] = waitDefault ∧
    sequencerStep waitDefault = LoopStep.dispatch waitDefault ∧
    get_next_action
        [Except.ok (JVal.obj [("foo", JVal.num 1)]),
         Except.ok (JVal.obj [("foo", JVal.num 1)]),
         Except.ok (JVal.obj [("foo", JVal.num 1)])] =
      JVal.obj [("foo", JVal.num 1)] ∧
    sequencerStep (JVal.obj [("foo", JVal.num 1)]) = LoopStep.stop :=
  ⟨rfl, rfl, rfl, rfl⟩

/-! ## Touch-lift invariant -/

theorem liftFollows_nil : liftFollows [] := by
  intro i x y h
  simp at h

theorem liftFollows_tap_cons (a b : ℚ) (l : List TouchEv) (hl : liftFollows l) :
    liftFollows (TouchEv.down a b :: TouchEv.lift :: l) := by
  intro i x y h
  match i with
  | 0 => simp
  | 1 => simp at h
  | n + 2 =>
    simp only [List.getElem?_cons_succ] at h ⊢
    exact hl n x y h

theorem liftFollows_blocks :
    ∀ ps : List (ℚ × ℚ), liftFollows (ps.flatMap fun p => tapEvents p.1 p.2) := by
  intro ps
  induction ps with
  | nil => exact liftFollows_nil
  | cons p ps ih =>
    have h : (p :: ps).flatMap (fun p => tapEvents p.1 p.2) =
        TouchEv.down p.1 p.2 :: TouchEv.lift :: (ps.flatMap fun p => tapEvents p.1 p.2) := by
      simp [tapEvents]
    rw [h]
    exact liftFollows_tap_cons _ _ _ ih

/-- C5: in every report sequence the touch encoder emits — `tap`,
`doubleTap` (two taps) and `swipe` — every touch-down report is followed by
the next report already being the lift, whose serialization is the all-zero
4-byte report. -/
theorem touch_lift_invariant (x y dx dy : ℚ) :
    liftFollows (tapEvents x y) ∧ liftFollows (doubleTapEvents x y) ∧
    liftFollows (swipeEvents dx dy) ∧ TouchEv.lift.bytes = [0, 0, 0, 0] := by
  refine ⟨?_, ?_, ?_, rfl⟩
  · exact liftFollows_blocks [(x, y)]
  · exact liftFollows_blocks [(x, y), (x, y)]
  · exact liftFollows_blocks (List.replicate 15 (1/2 + dx/15, 1/2 + dy/15))

/-- Witness for C5 at the tap `(1/4, 3/4)`: position 0 is a touch-down and
position 1 is the lift. -/
theorem touch_lift_invariant_witness :
    (tapEvents (1/4) (3/4))[0]? = some (TouchEv.down (1/4) (3/4)) ∧
    (tapEvents (1/4) (3/4))[1]? = some TouchEv.lift :=
  ⟨by decide, (touch_lift_invariant (1/4) (3/4) 0 0).1 0 (1/4) (3/4) (by decide)⟩

/-! ## Screen Locator: bounds and fallback -/

/-- C8: whenever `find_iphone_screen` returns a region, the margin-expanded
rectangle lies within the frame: `0 ≤ x`, `0 ≤ y`, `x + w ≤ frameW`,
`y + h ≤ frameH`. -/
theorem locator_region_in_bounds (frameH frameW : ℕ) (contours : List Contour)
    (x y w h : ℤ)
    (hfind : find_iphone_screen frameH frameW contours = some (x, y, w, h)) :
    0 ≤ x ∧ 0 ≤ y ∧ x + w ≤ (frameW : ℤ) ∧ y + h ≤ (frameH : ℤ) := by
  unfold find_iphone_screen at hfind
  split at hfind
  · exact absurd hfind (by simp)
  · dsimp only at hfind
    split at hfind
    · exact absurd hfind (by simp)
    · simp only [Option.some.injEq, Prod.mk.injEq] at hfind
      obtain ⟨hx, hy, hw, hh⟩ := hfind
      subst hx; subst hy; subst hw; subst hh
      refine ⟨le_max_left _ _, le_max_left _ _, ?_, ?_⟩ <;> omega

/-- Witness for C8 on a 1080×1920 frame with one large contour. -/
theorem locator_region_in_bounds_witness :
    find_iphone_screen 1080 1920 [⟨1000000, 100, 50, 1000, 800⟩] =
      some (95, 45, 1010, 810) ∧
    (0 ≤ (95 : ℤ) ∧ 0 ≤ (45 : ℤ) ∧ (95 : ℤ) + 1010 ≤ (1920 : ℤ) ∧
      (45 : ℤ) + 810 ≤ (1080 : ℤ)) :=
  ⟨by decide,
    locator_region_in_bounds 1080 1920 [⟨1000000, 100, 50, 1000, 800⟩]
      95 45 1010 810 (by decide)⟩

theorem selectLargest_of_small (minArea : ℚ) (contours : List Contour)
    (h : ∀ c ∈ contours, ¬ minArea < c.area) :
    selectLargest minArea contours = none := by
  unfold selectLargest
  have H : ∀ (l : List Contour) (acc : Option Contour × ℚ),
      (∀ c ∈ l, ¬ minArea < c.area) →
      l.foldl (fun acc c =>
        if minArea < c.area ∧ acc.2 < c.area then (some c, c.area) else acc) acc = acc := by
    intro l
    induction l with
    | nil => intro acc _; rfl
    | cons c l ih =>
      intro acc hl
      rw [List.foldl_cons, if_neg (fun hcon => hl c (List.mem_cons_self c l) hcon.1)]
      exact ih acc (fun d hd => hl d (List.mem_cons_of_mem c hd))
  rw [H contours (none, 0) h]

/-- C4 (counterexample): on a 1080×1920 frame whose only contour has area
100 (below `0.10 × frame_area = 207360`), `find_iphone_screen` returns
`None`, not the full-frame region `(0, 0, 1920, 1080)`. -/
theorem locator_no_fullframe_counterexample :
    find_iphone_screen 1080 1920 [⟨100, 10, 10, 50, 50⟩] = none ∧
    find_iphone_screen 1080 1920 [⟨100, 10, 10, 50, 50⟩] ≠
      some (0, 0, 1920, 1080) :=
  ⟨by decide, by decide⟩

/-- C4 (amended): when no contour exceeds `min_area_ratio × frame_area`,
`find_iphone_screen` itself returns `None`; it is the caller in `main` that
then falls back to the full frame, so the region effectively used by the
pipeline is `(0, 0, frameW, frameH)`. -/
theorem locator_fallback_amended (frameH frameW : ℕ) (contours : List Contour)
    (h : ∀ c ∈ contours, c.area ≤ (frameH : ℚ) * (frameW : ℚ) * (1 / 10)) :
    find_iphone_screen frameH frameW contours = none ∧
    regionUsed frameH frameW contours = (0, 0, (frameW : ℤ), (frameH : ℤ)) := by
  have hnone : find_iphone_screen frameH frameW contours = none := by
    unfold find_iphone_screen
    split
    · rfl
    · dsimp only
      rw [selectLargest_of_small _ _ (fun c hc => not_lt.mpr (h c hc))]
  refine ⟨hnone, ?_⟩
  unfold regionUsed
  rw [hnone]

/-- Witness for C4's amended statement: the pipeline-level region used for
the small-contour frame is the full frame. -/
theorem locator_fallback_amended_witness :
    (∀ c ∈ [(⟨100, 10, 10, 50, 50⟩ : Contour)],
      c.area ≤ (1080 : ℚ) * (1920 : ℚ) * (1 / 10)) ∧
    regionUsed 1080 1920 [⟨100, 10, 10, 50, 50⟩] = (0, 0, 1920, 1080) :=
  ⟨by decide, (locator_fallback_amended 1080 1920 _ (by decide)).2⟩

/-! ## Touch scaling: truncation, not rounding; no clamp -/

theorem pyTrunc_eq_floor (q : ℚ) (hq : 0 ≤ q) : pyTrunc q = ⌊q⌋ := by
  rw [Rat.floor_def]
  have hnum : 0 ≤ q.num := Rat.num_nonneg.mpr hq
  obtain ⟨m, hm⟩ := Int.eq_ofNat_of_zero_le hnum
  show q.num.tdiv (q.den : ℤ) = q.num / (q.den : ℤ)
  rw [hm]
  rfl

theorem scale15_eq_floor (x : ℚ) (h0 : 0 ≤ x) (h1 : x ≤ 1) :
    (scale15 x : ℤ) = ⌊x * 32767⌋ ∧ scale15 x ≤ 32767 := by
  have hq0 : (0 : ℚ) ≤ x * 32767 := by positivity
  have hq1 : x * 32767 ≤ 32767 := by nlinarith
  have htr : pyTrunc (x * 32767) = ⌊x * 32767⌋ := pyTrunc_eq_floor _ hq0
  have hfl0 : 0 ≤ ⌊x * 32767⌋ := Int.floor_nonneg.mpr hq0
  have hfl1 : ⌊x * 32767⌋ ≤ 32767 := by
    have h := Int.floor_le_floor hq1
    have e : ⌊(32767 : ℚ)⌋ = 32767 := by norm_num
    omega
  have hmod : pyTrunc (x * 32767) % 32768 = ⌊x * 32767⌋ := by
    rw [htr]
    exact Int.emod_eq_of_lt hfl0 (by omega)
  constructor
  · rw [scale15, hmod, Int.toNat_of_nonneg hfl0]
  · have : (scale15 x : ℤ) ≤ 32767 := by rw [scale15, hmod, Int.toNat_of_nonneg hfl0]; omega
    exact_mod_cast this

/-- C3 (counterexample): the claim's encoding (clamp to `[0,1]`, then
`round(x·32767) & 0x7FFF`) disagrees with the code's at `(0.5, 0.5)` —
`int(16383.5) = 16383` but `round(16383.5) = 16384` — and at `x = 1.5`,
where the code does not clamp (`int(1.5·32767) & 0x7FFF = 16382`, while the
clamped claim gives `32767`). -/
theorem tap_report_claim_counterexample :
    TouchEv.bytes (TouchEv.down (1/2) (1/2)) ≠ tapDownClaim (1/2) (1/2) ∧
    TouchEv.bytes (TouchEv.down (3/2) 0) ≠ tapDownClaim (3/2) 0 :=
  ⟨by decide, by decide⟩

/-- C3 (amended): coordinates are not clamped; each coordinate is scaled by
truncation toward zero, `int(x·32767) & 0x7FFF`, which for `x ∈ [0,1]`
equals `⌊x·32767⌋` and is at most `32767`; the touch-down report is 4 bytes,
little-endian X then little-endian Y. -/
theorem tap_report_truncates (x y : ℚ)
    (hx0 : 0 ≤ x) (hx1 : x ≤ 1) (hy0 : 0 ≤ y) (hy1 : y ≤ 1) :
    ((scale15 x : ℤ) = ⌊x * 32767⌋ ∧ (scale15 y : ℤ) = ⌊y * 32767⌋) ∧
    (scale15 x ≤ 32767 ∧ scale15 y ≤ 32767) ∧
    (TouchEv.down x y).bytes =
      [scale15 x % 256, scale15 x / 256, scale15 y % 256, scale15 y / 256] := by
  obtain ⟨hxf, hxb⟩ := scale15_eq_floor x hx0 hx1
  obtain ⟨hyf, hyb⟩ := scale15_eq_floor y hy0 hy1
  refine ⟨⟨hxf, hyf⟩, ⟨hxb, hyb⟩, ?_⟩
  have ex : scale15 x / 256 % 256 = scale15 x / 256 := Nat.mod_eq_of_lt (by omega)
  have ey : scale15 y / 256 % 256 = scale15 y / 256 := Nat.mod_eq_of_lt (by omega)
  simp [TouchEv.bytes, le16, ex, ey]

/-- Witness for C3's amended statement at `(x, y) = (1/4, 1/2)`. -/
theorem tap_report_truncates_witness :
    ((0 : ℚ) ≤ 1/4 ∧ (1/4 : ℚ) ≤ 1) ∧ (scale15 (1/4) : ℤ) = ⌊(1/4 : ℚ) * 32767⌋ :=
  ⟨⟨by decide, by decide⟩,
   (tap_report_truncates (1/4) (1/2) (by decide) (by decide) (by decide)
     (by decide)).1.1⟩

/-! ## Keyboard tables -/

/-- C6 (counterexample): `'A'` is outside the claimed character set, yet
`send_key('A')` emits reports — the character is lowercased first. -/
theorem send_key_uppercase_counterexample :
    send_key 'A' ≠ [] ∧ send_key 'A' = send_key 'a' :=
  ⟨by decide, by decide⟩

/-- C6 (amended): every character in {a–z, 0–9, space, newline, comma,
period, hyphen, slash} maps to a non-null, nonzero keycode and `send_key`
emits the 8-byte key-down boot report carrying it followed by the all-zero
key-up report; a character is lowercased first, and any character whose
lowercase form is unmapped produces no report and no exception. -/
theorem keymap_completeness_amended :
    (∀ c ∈ claimedChars, (KEY_MAP c).isSome = true ∧ (KEY_MAP c).getD 0 ≠ 0 ∧
      send_key c = [[0, 0, (KEY_MAP c).getD 0, 0, 0, 0, 0, 0], List.replicate 8 0]) ∧
    (∀ c : Char, KEY_MAP (pyLower c) = none → send_key c = []) := by
  constructor
  · decide
  · intro c h
    simp [send_key, h]

/-- Witness for C6's amended statement at `'q'` (mapped) and `'!'`
(unmapped, silently dropped). -/
theorem keymap_completeness_amended_witness :
    (KEY_MAP 'q').isSome = true ∧ send_key '!' = [] :=
  ⟨(keymap_completeness_amended.1 'q' (by decide)).1,
   keymap_completeness_amended.2 '!' (by decide)⟩

/-- C9 (counterexample): the two keyboard tables disagree at `'0'`:
`KEY_MAP['0'] = 0x1E` but `KEYCODE['0'] = 0x27`. -/
theorem keycode_tables_counterexample :
    KEY_MAP '0' = some 0x1E ∧ KEYCODE '0' = some 0x27 ∧
    KEY_MAP '0' ≠ KEYCODE '0' :=
  ⟨by decide, by decide, by decide⟩

/-- C9 (amended): the USB-gadget table `KEY_MAP` and the Bluetooth table
`KEYCODE` assign the same keycode to every letter a–z and to space, but
disagree on every digit: `KEY_MAP` maps `'0'..'9'` to `0x1E..0x27` in ASCII
order, while `KEYCODE` follows the HID usage table (`'1'..'9','0'` to
`0x1E..0x27`). -/
theorem keycode_tables_agreement_amended :
    (∀ c ∈ letterChars ++ [' '], KEY_MAP c = KEYCODE c) ∧
    (∀ c ∈ digitChars, KEY_MAP c ≠ KEYCODE c) :=
  ⟨by decide, by decide⟩

/-- Witness for C9's amended statement at `'a'` and `'5'`. -/
theorem keycode_tables_agreement_amended_witness :
    KEY_MAP 'a' = KEYCODE 'a' ∧ KEY_MAP '5' ≠ KEYCODE '5' :=
  ⟨keycode_tables_agreement_amended.1 'a' (by decide),
   keycode_tables_agreement_amended.2 '5' (by decide)⟩

/-! ## Case-insensitivity of `send_key` -/

theorem pyLower_fixed_of_lower (n : ℕ) (h1 : 97 ≤ n) (h2 : n ≤ 122) :
    pyLower (Char.ofNat n) = Char.ofNat n := by
  interval_cases n <;> decide

theorem pyLower_idem (c : Char) : pyLower (pyLower c) = pyLower c := by
  by_cases h : 65 ≤ c.toNat ∧ c.toNat ≤ 90
  · have e : pyLower c = Char.ofNat (c.toNat + 32) := by
      simp only [pyLower]
      rw [if_pos h]
    rw [e]
    exact pyLower_fixed_of_lower (c.toNat + 32) (by omega) (by omega)
  · have e : pyLower c = c := by
      simp only [pyLower]
      rw [if_neg h]
    rw [e]
    exact e

/-- C10: `send_key` is case-insensitive — `send_key(c)` emits exactly the
byte sequence of `send_key(lowercase(c))` for every character — and every
emitted report has modifier byte `0` (no shift). -/
theorem send_key_case_insensitive (c : Char) :
    send_key c = send_key (pyLower c) ∧ ∀ r ∈ send_key c, r[0]? = some 0 := by
  constructor
  · show send_key c = send_key (pyLower c)
    unfold send_key
    rw [pyLower_idem]
  · intro r hr
    unfold send_key at hr
    rcases hkm : KEY_MAP (pyLower c) with _ | kc <;> simp only [hkm] at hr
    · simp at hr
    · rcases List.mem_cons.mp hr with h | h
      · subst h; rfl
      · rw [List.mem_singleton.mp h]; rfl

/-- Witness for C10 at `'A'`: same reports as `'a'`, modifier byte zero. -/
theorem send_key_case_insensitive_witness :
    send_key 'A' = send_key (pyLower 'A') ∧
    ([0, 0, 4, 0, 0, 0, 0, 0] : List Nat)[0]? = some 0 :=
  ⟨(send_key_case_insensitive 'A').1,
   (send_key_case_insensitive 'A').2 [0, 0, 4, 0, 0, 0, 0, 0] (by decide)⟩

end IControl
